import Mathlib

/-!
Verification of the MLChess repository (Pygame_Chess_Beta).

Shallow embedding of:
- Game.py        (driver: legal-move aggregation, move application, checkmate test)
- ML.py          (EngineAI wrapper: candidate-move restriction, UCI square naming)
- MLBeta.py      (training collaborator: board tensor encoding, trainer move maps)

The ChessBoard class and the per-piece move generators are declared and called
by the three files above but their own source is not part of the repository
snapshot; those operations are modelled from the specification (marked
"Modelled from the spec:" below).  Everything else is translated directly from
the Python source.
-/

namespace MLChess

/-- Player color, source values are the strings "w" and "b". -/
inductive Color where
  | w : Color
  | b : Color
deriving DecidableEq, Repr

/-- The opposing color. -/
def Color.other : Color → Color
  | .w => .b
  | .b => .w

/-- Piece kind; source uses the class / `name` attribute strings. -/
inductive PieceName where
  | Pawn : PieceName
  | Knight : PieceName
  | Bishop : PieceName
  | Rook : PieceName
  | Queen : PieceName
  | King : PieceName
deriving DecidableEq, Repr

/-- Modelled from the spec: Piece = kind, color, position, hasMoved flag
(spec section 3 data model). -/
structure Piece where
  name : PieceName
  color : Color
  position : Nat × Nat
  has_moved : Bool
deriving DecidableEq, Repr

/-- An internal square: (file 0-7, rank 0-7). -/
abbrev Square := Nat × Nat

/-- Modelled from the spec: the Board record (spec section 3) — grid of
optional occupants indexed like the source `board.board[x][y]`, side to move,
move history, captured-piece lists. -/
structure ChessBoard where
  board : Square → Option Piece
  curr_player : Color
  played_moves : List String
  white_taken : List Piece
  black_taken : List Piece

/-- ChessBoard.get_piece_at: occupant of a square (caller of record in
Game.py line 102; the accessor itself is modelled from the spec). -/
def get_piece_at (bd : ChessBoard) (pos : Square) : Option Piece :=
  bd.board pos

/-- Modelled from the spec: enumerate all pieces on the board by scanning the
8x8 grid (ChessBoard.get_all_pieces, called at Game.py line 150). -/
def get_all_pieces (bd : ChessBoard) : List Piece :=
  (List.range 8).flatMap fun x =>
    (List.range 8).filterMap fun y => bd.board (x, y)

/-- Modelled from the spec: pieces belonging to the side to move
(ChessBoard.get_curr_player_pieces, called at Game.py line 324). -/
def get_curr_player_pieces (bd : ChessBoard) : List Piece :=
  (get_all_pieces bd).filter fun p => p.color = bd.curr_player

/-- Whether an (Int-coordinate) square lies on the board. -/
def inBoard (x y : Int) : Bool :=
  0 ≤ x ∧ x < 8 ∧ 0 ≤ y ∧ y < 8

/-- Color of the occupant of a square, if any. -/
def colorAt (bd : ChessBoard) (sq : Square) : Option Color :=
  (bd.board sq).map (·.color)

/-- One candidate leap destination (knight/king): on the board and not
occupied by a same-color piece. -/
def tryStep (bd : ChessBoard) (c : Color) (x y : Int) : Option Square :=
  if inBoard x y ∧ colorAt bd (x.toNat, y.toNat) ≠ some c then
    some (x.toNat, y.toNat)
  else
    none

/-- Modelled from the spec: ray-cast along a direction until board edge, own
piece (stop, excluded) or opposing piece (stop, included as a capture)
(spec section 4.1, sliding pieces). -/
def ray (bd : ChessBoard) (c : Color) (x y dx dy : Int) : Nat → List Square
  | 0 => []
  | fuel + 1 =>
    let nx := x + dx
    let ny := y + dy
    if inBoard nx ny then
      match bd.board (nx.toNat, ny.toNat) with
      | none => (nx.toNat, ny.toNat) :: ray bd c nx ny dx dy fuel
      | some p => if p.color = c then [] else [(nx.toNat, ny.toNat)]
    else []

/-- Modelled from the spec: pawn pseudo-legal moves — one forward if empty,
two forward from start if unmoved and both squares empty, diagonal squares
only when occupied by an opposing piece (spec section 4.1). -/
def pawnMoves (bd : ChessBoard) (p : Piece) : List Square :=
  let x : Int := p.position.1
  let y : Int := p.position.2
  let dir : Int := match p.color with | .w => 1 | .b => -1
  let fwd1 :=
    if inBoard x (y + dir) ∧ bd.board (x.toNat, (y + dir).toNat) = none then
      [((x.toNat : Nat), (y + dir).toNat)]
    else []
  let fwd2 :=
    if ¬ p.has_moved ∧ inBoard x (y + dir) ∧
        bd.board (x.toNat, (y + dir).toNat) = none ∧
        inBoard x (y + 2 * dir) ∧
        bd.board (x.toNat, (y + 2 * dir).toNat) = none then
      [((x.toNat : Nat), (y + 2 * dir).toNat)]
    else []
  let diag := fun (dx : Int) =>
    if inBoard (x + dx) (y + dir) ∧
        (∃ q, bd.board ((x + dx).toNat, (y + dir).toNat) = some q ∧
          q.color ≠ p.color) then
      [(((x + dx).toNat : Nat), (y + dir).toNat)]
    else []
  fwd1 ++ fwd2 ++ diag (-1) ++ diag 1

/-- Modelled from the spec: knight pseudo-legal moves — the eight L-shaped
offsets filtered to board bounds and non-own-color squares. -/
def knightMoves (bd : ChessBoard) (p : Piece) : List Square :=
  let x : Int := p.position.1
  let y : Int := p.position.2
  [((1 : Int), (2 : Int)), (2, 1), (2, -1), (1, -2),
   (-1, -2), (-2, -1), (-2, 1), (-1, 2)].filterMap fun d =>
    tryStep bd p.color (x + d.1) (y + d.2)

/-- Modelled from the spec: king pseudo-legal moves — the eight adjacent
squares filtered as for the knight; castling destinations are not produced
here (spec section 4.1). -/
def kingMoves (bd : ChessBoard) (p : Piece) : List Square :=
  let x : Int := p.position.1
  let y : Int := p.position.2
  [((1 : Int), (0 : Int)), (1, 1), (0, 1), (-1, 1),
   (-1, 0), (-1, -1), (0, -1), (1, -1)].filterMap fun d =>
    tryStep bd p.color (x + d.1) (y + d.2)

/-- Modelled from the spec: sliding-piece pseudo-legal moves along a
direction set. -/
def slideMoves (bd : ChessBoard) (p : Piece) (dirs : List (Int × Int)) :
    List Square :=
  dirs.flatMap fun d =>
    ray bd p.color p.position.1 p.position.2 d.1 d.2 7

/-- Modelled from the spec: ChessBoard.get_poss_moves_for — pseudo-legal move
generation dispatching on the piece kind (spec section 4.1; called at
Game.py line 326 and MLBeta.py lines 70, 137, 158). -/
def get_poss_moves_for (bd : ChessBoard) (p : Piece) : List Square :=
  match p.name with
  | .Pawn => pawnMoves bd p
  | .Knight => knightMoves bd p
  | .Bishop => slideMoves bd p [(1, 1), (1, -1), (-1, 1), (-1, -1)]
  | .Rook => slideMoves bd p [(1, 0), (-1, 0), (0, 1), (0, -1)]
  | .Queen =>
    slideMoves bd p
      [(1, 1), (1, -1), (-1, 1), (-1, -1), (1, 0), (-1, 0), (0, 1), (0, -1)]
  | .King => kingMoves bd p

/-- Grid update: store an optional occupant at a square (embeds the
assignments of the form board.board[x][y] = v appearing in Game.py and
MLBeta.py). -/
def setSquare (bd : ChessBoard) (sq : Square) (v : Option Piece) :
    ChessBoard :=
  { bd with board := fun q => if q = sq then v else bd.board q }

/-- Modelled from the spec: ChessBoard.move_piece — relocate the piece
(clearing its old square, marking it moved), remove any captured occupant and
transfer it to the captured list, and return the captured piece (spec
sections 3 and 4.4; called at Game.py line 341 and MLBeta.py line 112). -/
def move_piece (bd : ChessBoard) (p : Piece) (newPos : Square) :
    ChessBoard × Option Piece :=
  let captured := bd.board newPos
  let moved : Piece :=
    { name := p.name, color := p.color, position := newPos, has_moved := true }
  let bd1 := setSquare bd p.position none
  let bd2 := setSquare bd1 newPos (some moved)
  let bd3 :=
    match captured with
    | some cp =>
      if cp.color = .w then
        { bd2 with white_taken := bd2.white_taken ++ [cp] }
      else
        { bd2 with black_taken := bd2.black_taken ++ [cp] }
    | none => bd2
  (bd3, captured)

/-- Modelled from the spec: the king of a given color on the board. -/
def find_king (bd : ChessBoard) (c : Color) : Option Piece :=
  (get_all_pieces bd).find? fun p => p.name = .King ∧ p.color = c

/-- Modelled from the spec: whether any piece of color c has the square in
its pseudo-legal move set (spec section 4.2 attack test). -/
def square_attacked_by (bd : ChessBoard) (c : Color) (sq : Square) : Bool :=
  (get_all_pieces bd).any fun p =>
    p.color = c ∧ sq ∈ get_poss_moves_for bd p

/-- Modelled from the spec: simulate one candidate move on a scratch copy of
the board, then test whether any opposing piece's pseudo-legal moves include
the mover's own king square (spec section 4.2). -/
def move_leaves_king_attacked (bd : ChessBoard) (p : Piece) (tp : Square) :
    Bool :=
  let bd2 := (move_piece bd p tp).1
  match find_king bd2 bd.curr_player with
  | some k => square_attacked_by bd2 bd.curr_player.other k.position
  | none => false

/-- Modelled from the spec: ChessBoard.is_curr_player_in_check — given a
piece and its pseudo-legal moves, keep exactly the candidates whose
simulation does not leave the mover's own king attacked (spec section 4.2;
called at Game.py line 327). -/
def is_curr_player_in_check (bd : ChessBoard) (p : Piece)
    (p_moves : List Square) : List Square :=
  p_moves.filter fun tp => ! move_leaves_king_attacked bd p tp

/-- Game.get_all_poss_moves (Game.py lines 320-328): map every piece of the
side to move to its check-filtered move list. -/
def get_all_poss_moves (bd : ChessBoard) : List (Square × List Square) :=
  (get_curr_player_pieces bd).map fun p =>
    (p.position, is_curr_player_in_check bd p (get_poss_moves_for bd p))

/-- Modelled from the spec: ChessBoard.get_castle_moves_for_curr_player —
legal castling destinations for the side to move: king and rook unmoved,
intervening squares empty, king's square and every square it passes through
(destination included) unattacked (spec section 4.3; called at Game.py
lines 110, 191, 260). -/
def get_castle_moves_for_curr_player (bd : ChessBoard) : List Square :=
  match find_king bd bd.curr_player with
  | none => []
  | some k =>
    let r := k.position.2
    let opp := bd.curr_player.other
    let kingSide :=
      match bd.board (7, r) with
      | some rook =>
        if rook.name = .Rook ∧ rook.color = bd.curr_player ∧
            ¬ rook.has_moved ∧ ¬ k.has_moved ∧
            bd.board (5, r) = none ∧ bd.board (6, r) = none ∧
            ¬ square_attacked_by bd opp k.position ∧
            ¬ square_attacked_by bd opp (5, r) ∧
            ¬ square_attacked_by bd opp (6, r) then
          [((6 : Nat), r)]
        else []
      | none => []
    let queenSide :=
      match bd.board (0, r) with
      | some rook =>
        if rook.name = .Rook ∧ rook.color = bd.curr_player ∧
            ¬ rook.has_moved ∧ ¬ k.has_moved ∧
            bd.board (1, r) = none ∧ bd.board (2, r) = none ∧
            bd.board (3, r) = none ∧
            ¬ square_attacked_by bd opp k.position ∧
            ¬ square_attacked_by bd opp (3, r) ∧
            ¬ square_attacked_by bd opp (2, r) then
          [((2 : Nat), r)]
        else []
      | none => []
    kingSide ++ queenSide

/-- Modelled from the spec: ChessBoard.castle_king — atomically relocate both
king and rook (king already validated against the castling destinations);
called at Game.py lines 112, 194, 263. -/
def castle_king (bd : ChessBoard) (k : Piece) (to_pos : Square) :
    ChessBoard :=
  let r := to_pos.2
  let bd1 := (move_piece bd k to_pos).1
  if to_pos.1 = 6 then
    match bd1.board (7, r) with
    | some rook => (move_piece bd1 rook (5, r)).1
    | none => bd1
  else if to_pos.1 = 2 then
    match bd1.board (0, r) with
    | some rook => (move_piece bd1 rook (3, r)).1
    | none => bd1
  else bd1

/-- Game.change_curr_player (Game.py lines 345-347). -/
def change_curr_player (bd : ChessBoard) : ChessBoard :=
  { bd with curr_player := if bd.curr_player = .b then .w else .b }

/-- Game.convert_coordinate_to_space_name (Game.py lines 365-368). -/
def convert_coordinate_to_space_name (c : Square) : String :=
  (["A", "B", "C", "D", "E", "F", "G", "H"].getD c.1 ("")) ++ toString (c.2 + 1)

/-- Game.add_move (Game.py lines 359-363): append the move to the played-move
history kept on the board. -/
def add_move (bd : ChessBoard) (pos_1 pos_2 : Square) : ChessBoard :=
  let name :=
    (match bd.curr_player with | .w => "W" | .b => "B") ++ ":     "
  { bd with
    played_moves :=
      bd.played_moves ++
        [name ++ convert_coordinate_to_space_name pos_1 ++ " -> " ++
          convert_coordinate_to_space_name pos_2] }

/-- Game.check_checkmate inner loop (Game.py lines 165-171, duplicated at
lines 211-214 and 281-284): start from true and clear the flag whenever an
entry of the move map is non-empty. -/
def check_checkmate (m : List (Square × List Square)) : Bool :=
  m.foldl (fun acc e => if e.2.length ≠ 0 then false else acc) true

/-- Game-level mutable state relevant to the rules engine: the board plus the
selection fields and the cached legal-move map (Game.py constructor
lines 22-27). -/
structure GameSt where
  chess_board : ChessBoard
  curr_selected_piece : Option Piece
  curr_poss_moves : Option (List Square)
  all_poss_moves : List (Square × List Square)

/-- Python dict lookup on the legal-move map (insertion-ordered association
list). -/
def lookupMoves (m : List (Square × List Square)) (k : Square) :
    Option (List Square) :=
  (m.find? fun e => e.1 = k).map (·.2)

/-- Game.is_piece_of_curr_player (Game.py lines 314-318). -/
def is_piece_of_curr_player (bd : ChessBoard) (space : Square) : Bool :=
  (get_curr_player_pieces bd).any fun p => p.position = space

/-- Game.new_piece_selected (Game.py lines 349-352) together with
Game.get_curr_poss_moves (lines 330-332): select the occupant and cache its
entry of the move map (selecting an empty square faults in the source; the
embedding clears the selection, which leaves the board untouched either
way). -/
def new_piece_selected (st : GameSt) (space : Square) : GameSt :=
  match get_piece_at st.chess_board space with
  | some p =>
    { st with
      curr_selected_piece := some p,
      curr_poss_moves :=
        some ((lookupMoves st.all_poss_moves p.position).getD []) }
  | none => { st with curr_selected_piece := none, curr_poss_moves := none }

/-- Game.deselect_piece (Game.py lines 354-357). -/
def deselect_piece (st : GameSt) : GameSt :=
  { st with curr_selected_piece := none, curr_poss_moves := none }

/-- Game.move_piece (Game.py lines 337-343): apply the board move (the
captured-piece image bookkeeping is GUI-only). -/
def game_move_piece (st : GameSt) (p : Piece) (newPos : Square) : GameSt :=
  { st with chess_board := (move_piece st.chess_board p newPos).1 }

/-- The move-application block shared verbatim by Game.make_ai_move
(lines 109-124), Game.get_valid_command (lines 188-210) and
Game.get_user_click (lines 257-281): castle or move, promote a pawn reaching
rank 0 or 7 to a queen of the current player, deselect, flip the player and
recompute the move map (the checkmate message / quit that follows is
display-only). -/
def apply_selected_move (st : GameSt) (piece : Piece) (dest : Square) :
    GameSt :=
  let st1 :=
    if piece.name = .King ∧
        dest ∈ get_castle_moves_for_curr_player st.chess_board then
      let stm := { st with
        chess_board := add_move st.chess_board piece.position dest }
      { stm with chess_board := castle_king stm.chess_board piece dest }
    else
      let stm := { st with
        chess_board := add_move st.chess_board piece.position dest }
      let stm2 := game_move_piece stm piece dest
      if piece.name = .Pawn ∧ (dest.2 = 0 ∨ dest.2 = 7) then
        let stm3 :=
          { stm2 with chess_board := setSquare stm2.chess_board dest none }
        { stm3 with
          chess_board :=
            setSquare stm3.chess_board dest
              (some { name := .Queen,
                      color := stm3.chess_board.curr_player,
                      position := dest, has_moved := false }) }
      else stm2
  let st2 := deselect_piece st1
  let st3 := { st2 with chess_board := change_curr_player st2.chess_board }
  { st3 with all_poss_moves := get_all_poss_moves st3.chess_board }

/-- Game.get_valid_command (Game.py lines 181-225) on an already-parsed
command (from-square, to-square). -/
def get_valid_command (st : GameSt) (fp tp : Square) : GameSt :=
  if is_piece_of_curr_player st.chess_board fp then
    let poss := (lookupMoves st.all_poss_moves fp).getD []
    let st1 := new_piece_selected st fp
    if tp ∈ poss then
      match st1.curr_selected_piece with
      | some piece => apply_selected_move st1 piece tp
      | none => st1
    else st1
  else deselect_piece st

/-- Game.get_user_click (Game.py lines 238-302) after the pixel position has
been converted to a board square. -/
def get_user_click_space (st : GameSt) (selected_space : Square) : GameSt :=
  match st.curr_selected_piece with
  | none =>
    if is_piece_of_curr_player st.chess_board selected_space then
      new_piece_selected st selected_space
    else st
  | some sel =>
    if selected_space = sel.position then deselect_piece st
    else if selected_space ∈ st.curr_poss_moves.getD [] then
      apply_selected_move st sel selected_space
    else if (get_curr_player_pieces st.chess_board).any
        (fun p => p.position = selected_space) then
      new_piece_selected st selected_space
    else deselect_piece st

/-- Game.convert_coordinates_to_space (Game.py lines 304-307). -/
def convert_coordinates_to_space (x y : Nat) : Square :=
  (x / 75, 7 - y / 75)

/-- Game.get_user_click (Game.py lines 227-302): menu areas are ignored,
board clicks are converted and dispatched. -/
def get_user_click (st : GameSt) (x y : Nat) : GameSt :=
  if y > 600 then st
  else if x > 600 then st
  else get_user_click_space st (convert_coordinates_to_space x y)

/-- DirectionRules (ML.py lines 12-20): direction restrictions in terms of
(dx, dy) vectors, with an option to exempt knights. -/
structure DirectionRules where
  allowed_vectors : List (Int × Int)
  allow_knight : Bool
deriving DecidableEq, Repr

/-- Source function _normalize_direction (ML.py lines 34-46). -/
def _normalize_direction (dx dy : Int) : Int × Int :=
  if dx = 0 ∧ dy = 0 then (0, 0)
  else if dx = 0 then (0, if dy > 0 then 1 else -1)
  else if dy = 0 then ((if dx > 0 then 1 else -1), 0)
  else if dx.natAbs = dy.natAbs then
    ((if dx > 0 then 1 else -1), (if dy > 0 then 1 else -1))
  else (dx, dy)

/-- DirectionRules.is_allowed (ML.py lines 22-31). -/
def DirectionRules.is_allowed (r : DirectionRules) (piece_name : PieceName)
    (from_pos to_pos : Square) : Bool :=
  if r.allow_knight ∧ piece_name = .Knight then true
  else
    let dx : Int := (to_pos.1 : Int) - (from_pos.1 : Int)
    let dy : Int := (to_pos.2 : Int) - (from_pos.2 : Int)
    _normalize_direction dx dy ∈ r.allowed_vectors

/-- EngineAI._to_uci (ML.py lines 111-118): file 0-7 to a-h, rank 0-7 to
digit characters 1-8. -/
def _to_uci (from_pos to_pos : Square) : String :=
  let sq := fun (p : Square) =>
    String.mk ["abcdefgh".data.getD p.1 ' ', Nat.digitChar (p.2 + 1)]
  sq from_pos ++ sq to_pos

/-- EngineAI._from_uci (ML.py lines 120-127). -/
def _from_uci (uci : String) : Square × Square :=
  match uci.data with
  | c1 :: c2 :: c3 :: c4 :: _ =>
    (("abcdefgh".data.indexOf c1, (c2.toNat - '0'.toNat) - 1),
     ("abcdefgh".data.indexOf c3, (c4.toNat - '0'.toNat) - 1))
  | _ => ((0, 0), (0, 0))

/-- The guard `rules and not rules.is_allowed(...)` of ML.py line 89: a move
passes when no rules object is supplied or the rules allow it. -/
def rules_allow (rules : Option DirectionRules) (piece_name : PieceName)
    (from_pos to_pos : Square) : Bool :=
  match rules with
  | some r => r.is_allowed piece_name from_pos to_pos
  | none => true

/-- The root_moves list built by EngineAI.choose_move (ML.py lines 82-96):
candidate moves from the supplied legal-move map whose source square is
occupied, that pass the optional DirectionRules filter and that the
python-chess FEN position also deems legal (the python-chess test is the
oracle argument fenLegal), encoded in UCI notation. -/
def root_moves_for (bd : ChessBoard)
    (legal_moves : List (Square × List Square))
    (rules : Option DirectionRules) (fenLegal : String → Bool) :
    List String :=
  legal_moves.flatMap fun e =>
    match get_piece_at bd e.1 with
    | none => []
    | some piece =>
      e.2.filterMap fun tp =>
        if rules_allow rules piece.name e.1 tp then
          let uci := _to_uci e.1 tp
          if fenLegal uci then some uci else none
        else none

/-- EngineAI.choose_move (ML.py lines 71-109): build the root-move list,
return none when it is empty, otherwise ask the engine (the oracle argument,
standing for engine.play restricted to root_moves) and decode whatever UCI
string it answers; the answer is not checked against root_moves. -/
def choose_move (bd : ChessBoard)
    (legal_moves : List (Square × List Square))
    (rules : Option DirectionRules) (fenLegal : String → Bool)
    (engine : List String → Option String) : Option (Square × Square) :=
  let rm := root_moves_for bd legal_moves rules fenLegal
  if rm = [] then none
  else
    match engine rm with
    | none => none
    | some best => some (_from_uci best)

/-- ai_rules_black (Game.py lines 40-43). -/
def ai_rules_black : DirectionRules :=
  { allowed_vectors := [(0, -1), (-1, 0), (1, 0), (-1, -1), (1, -1)],
    allow_knight := true }

/-- ai_rules_white (Game.py line 44). -/
def ai_rules_white : Option DirectionRules := none

/-- The rules selection of Game.make_ai_move (Game.py line 95). -/
def ai_rules_for (bd : ChessBoard) : Option DirectionRules :=
  if bd.curr_player = .b then some ai_rules_black else ai_rules_white

/-- Game.make_ai_move (Game.py lines 88-124): refresh the move map, ask the
engine for a move among it, and apply the move only when one was returned,
its source square is occupied and its destination is among the cached
moves. -/
def make_ai_move (st : GameSt) (fenLegal : String → Bool)
    (engine : List String → Option String) : GameSt :=
  let st0 :=
    { st with all_poss_moves := get_all_poss_moves st.chess_board }
  match choose_move st0.chess_board st0.all_poss_moves
      (ai_rules_for st0.chess_board) fenLegal engine with
  | none => st0
  | some (fp, tp) =>
    match get_piece_at st0.chess_board fp with
    | none => st0
    | some piece =>
      let st1 := new_piece_selected st0 fp
      if tp ∈ st1.curr_poss_moves.getD [] then
        apply_selected_move st1 piece tp
      else st1

/-- piece_types (MLBeta.py lines 40-43). -/
def piece_types : PieceName → Nat
  | .Pawn => 0
  | .Knight => 1
  | .Bishop => 2
  | .Rook => 3
  | .Queen => 4
  | .King => 5

/-- The tensor channel selected at MLBeta.py lines 49-51: the piece-type
index, shifted by 6 for black pieces. -/
def channelOf (p : Piece) : Nat :=
  piece_types p.name + (if p.color = .b then 6 else 0)

/-- One assignment tensor[c, x, y] = v on the 12x8x8 value array. -/
def tensor_set (t : Nat → Nat → Nat → Nat) (c x y v : Nat) :
    Nat → Nat → Nat → Nat :=
  fun c2 x2 y2 => if c2 = c ∧ x2 = x ∧ y2 = y then v else t c2 x2 y2

/-- board_to_tensor value array (MLBeta.py lines 36-53): start from zeros and
walk the grid, writing 1 at (channel, x, y) for every occupied square. -/
def board_to_tensor_fun (bd : ChessBoard) : Nat → Nat → Nat → Nat :=
  (List.range 8).foldl
    (fun t x =>
      (List.range 8).foldl
        (fun t2 y =>
          match bd.board (x, y) with
          | some p => tensor_set t2 (channelOf p) x y 1
          | none => t2)
        t)
    (fun _ _ _ => 0)

/-- board_to_tensor (MLBeta.py lines 36-54): the 12x8x8 value array
materialized at its fixed shape, wrapped by the final unsqueeze(0) into
shape 1x12x8x8. -/
def board_to_tensor (bd : ChessBoard) : List (List (List (List Nat))) :=
  [(List.range 12).map fun c =>
    (List.range 8).map fun x =>
      (List.range 8).map fun y => board_to_tensor_fun bd c x y]

/-- Read entry [n][c][x][y] of a materialized tensor. -/
def get4 (t : List (List (List (List Nat)))) (n c x y : Nat) : Nat :=
  (((t.getD n []).getD c []).getD x []).getD y 0

/-- The per-piece move dictionary built by ChessAITrainer.get_random_move and
ChessAITrainer.get_network_move (MLBeta.py lines 68-72 and 135-139): raw
pseudo-legal moves, keeping only pieces with a non-empty move list. -/
def trainer_possible_moves (bd : ChessBoard) : List (Square × List Square) :=
  (get_curr_player_pieces bd).filterMap fun p =>
    let moves := get_poss_moves_for bd p
    if moves ≠ [] then some (p.position, moves) else none

/-- ChessAITrainer.is_checkmate (MLBeta.py lines 155-160): true when every
piece of the side to move has an empty pseudo-legal move list. -/
def trainer_is_checkmate (bd : ChessBoard) : Bool :=
  (get_curr_player_pieces bd).all fun p => get_poss_moves_for bd p = []

/-- The move-execution step of ChessAITrainer.simulate_game (MLBeta.py
lines 100-120): fetch the piece, apply the move, promote a pawn reaching
rank 0 or 7 to a queen of the current player, then switch the player. -/
def trainer_apply_move (bd : ChessBoard) (fp tp : Square) : ChessBoard :=
  match get_piece_at bd fp with
  | none => bd
  | some piece =>
    let bd2 := (move_piece bd piece tp).1
    let bd3 :=
      if piece.name = .Pawn ∧ (tp.2 = 0 ∨ tp.2 = 7) then
        setSquare bd2 tp
          (some { name := .Queen, color := bd2.curr_player,
                  position := tp, has_moved := false })
      else bd2
    { bd3 with
      curr_player := if bd3.curr_player = .b then .w else .b }

/-- Board literal used by concrete examples: the given pieces at their stated
positions, the given side to move, empty history and captured lists. -/
def mkBoard (ps : List Piece) (c : Color) : ChessBoard :=
  { board := fun sq => ps.find? fun p => p.position = sq,
    curr_player := c,
    played_moves := [],
    white_taken := [],
    black_taken := [] }

/-- Square (x, y) holds a piece whose tensor channel is c. -/
def hitChannel (bd : ChessBoard) (c x y : Nat) : Bool :=
  match bd.board (x, y) with
  | some p => channelOf p = c
  | none => false

/-- Two grid cells agree as occupancy: both empty, or occupied by pieces of
the same kind and color (position and has_moved may differ). -/
def occ_eq (o1 o2 : Option Piece) : Bool :=
  match o1, o2 with
  | none, none => true
  | some p, some q => p.name = q.name ∧ p.color = q.color
  | _, _ => false

/-! Concrete boards and states used by closed examples. -/

/-- A white pawn one step from promotion. -/
def pawnW0 : Piece :=
  { name := .Pawn, color := .w, position := (0, 6), has_moved := true }

/-- A white king in the corner. -/
def kingW0 : Piece :=
  { name := .King, color := .w, position := (7, 0), has_moved := true }

/-- A small position with White to move: pawn a7, king h1. -/
def pawnBoardW : ChessBoard := mkBoard [pawnW0, kingW0] Color.w

/-- A board holding no pieces at all, White to move. -/
def emptyBoardW : ChessBoard := mkBoard [] Color.w

/-- White king e1. -/
def kingE1 : Piece :=
  { name := .King, color := .w, position := (4, 0), has_moved := true }

/-- White rook e2, pinned against the king by the rook on e8. -/
def rookE2 : Piece :=
  { name := .Rook, color := .w, position := (4, 1), has_moved := true }

/-- Black rook e8. -/
def rookE8 : Piece :=
  { name := .Rook, color := .b, position := (4, 7), has_moved := true }

/-- A pin position: the white rook may not leave the e-file. -/
def pinBoard : ChessBoard := mkBoard [kingE1, rookE2, rookE8] Color.w

/-- Game state over pawnBoardW with a freshly computed move map. -/
def stPW : GameSt :=
  { chess_board := pawnBoardW, curr_selected_piece := none,
    curr_poss_moves := none,
    all_poss_moves := get_all_poss_moves pawnBoardW }

/-- The same state with the pawn already selected (mouse path). -/
def stPWsel : GameSt :=
  { chess_board := pawnBoardW, curr_selected_piece := some pawnW0,
    curr_poss_moves := some [(0, 7)],
    all_poss_moves := get_all_poss_moves pawnBoardW }

/-- A single white pawn on a2, used by engine-wrapper examples. -/
def pawnA2 : Piece :=
  { name := .Pawn, color := .w, position := (0, 1), has_moved := false }

/-- Board for the engine-wrapper examples. -/
def cbA2 : ChessBoard := mkBoard [pawnA2] Color.w

/-- A one-entry candidate map: the pawn may advance to a3. -/
def lmA2 : List (Square × List Square) := [((0, 1), [(0, 2)])]

/-- Copy of pawnBoardW that differs in every non-grid component and in the
pieces' has_moved flags, but agrees on occupancy (name and color per
square). -/
def pawnBoardW2 : ChessBoard :=
  { board := fun sq =>
      [({ name := .Pawn, color := .w, position := (0, 6),
          has_moved := false } : Piece),
       { name := .King, color := .w, position := (7, 0),
         has_moved := false }].find? fun p => p.position = sq,
    curr_player := Color.b,
    played_moves := ["W:     A2 -> A4"],
    white_taken := [pawnA2],
    black_taken := [kingW0] }

/-! Helper lemmas. -/

lemma new_piece_selected_chess_board (st : GameSt) (sp : Square) :
    (new_piece_selected st sp).chess_board = st.chess_board := by
  cases hp : get_piece_at st.chess_board sp <;>
    simp [new_piece_selected, hp]

lemma setSquare_curr_player (bd : ChessBoard) (sq : Square)
    (v : Option Piece) : (setSquare bd sq v).curr_player = bd.curr_player :=
  rfl

lemma setSquare_board (bd : ChessBoard) (sq q : Square) (v : Option Piece) :
    (setSquare bd sq v).board q = if q = sq then v else bd.board q :=
  rfl

lemma move_piece_fst_curr_player (bd : ChessBoard) (p : Piece)
    (q : Square) : ((move_piece bd p q).1).curr_player = bd.curr_player := by
  unfold move_piece
  cases hc : bd.board q with
  | none => rfl
  | some cp => by_cases h : cp.color = .w <;> simp [h, setSquare]

lemma move_piece_fst_board_dest (bd : ChessBoard) (p : Piece) (q : Square) :
    ((move_piece bd p q).1).board q =
      some { name := p.name, color := p.color, position := q,
             has_moved := true } := by
  unfold move_piece
  cases hc : bd.board q with
  | none => simp [setSquare]
  | some cp => by_cases h : cp.color = .w <;> simp [h, setSquare]

lemma check_checkmate_foldl (m : List (Square × List Square)) (acc : Bool) :
    m.foldl (fun acc2 e => if e.2.length ≠ 0 then false else acc2) acc =
      (acc && m.all fun e => e.2.isEmpty) := by
  induction m generalizing acc with
  | nil => simp
  | cons e t ih =>
    rw [List.foldl_cons, ih, List.all_cons]
    by_cases he : e.2 = []
    · simp [he]
    · have hl : e.2.length ≠ 0 := by
        simpa [List.length_eq_zero] using he
      simp [hl, List.isEmpty_iff, he]

lemma uci_round_trip_fin :
    ∀ a b c d : Fin 8,
      _from_uci (_to_uci (a.1, b.1) (c.1, d.1)) = ((a.1, b.1), (c.1, d.1)) := by
  decide

lemma uci_round_trip (p q : Square) (h1 : p.1 ≤ 7) (h2 : p.2 ≤ 7)
    (h3 : q.1 ≤ 7) (h4 : q.2 ≤ 7) :
    _from_uci (_to_uci p q) = (p, q) := by
  obtain ⟨p1, p2⟩ := p
  obtain ⟨q1, q2⟩ := q
  exact uci_round_trip_fin ⟨p1, by omega⟩ ⟨p2, by omega⟩ ⟨q1, by omega⟩
    ⟨q2, by omega⟩

/-! Claim theorems. -/

/-- C8: square-name translation round-trips: for internal squares with
coordinates 0-7, _from_uci inverts _to_uci. -/
theorem to_uci_from_uci_round_trip (f1 r1 f2 r2 : Nat)
    (h1 : f1 ≤ 7) (h2 : r1 ≤ 7) (h3 : f2 ≤ 7) (h4 : r2 ≤ 7) :
    _from_uci (_to_uci (f1, r1) (f2, r2)) = ((f1, r1), (f2, r2)) :=
  uci_round_trip (f1, r1) (f2, r2) h1 h2 h3 h4

/-- Witness for C8 at the concrete squares e2 and e4. -/
theorem to_uci_from_uci_round_trip_witness :
    _from_uci (_to_uci (4, 1) (4, 3)) = ((4, 1), (4, 3)) :=
  to_uci_from_uci_round_trip 4 1 4 3 (by decide) (by decide) (by decide)
    (by decide)

/-- C2 (amended): Game.check_checkmate declares checkmate exactly when every
entry of the legal-move map is empty; on a board where the side to move has
no pieces the map is empty and checkmate is therefore (vacuously) declared,
so the map-emptiness test alone is the whole criterion. -/
theorem check_checkmate_iff_all_entries_empty (bd : ChessBoard) :
    check_checkmate (get_all_poss_moves bd) = true ↔
      ∀ e ∈ get_all_poss_moves bd, e.2 = [] := by
  unfold check_checkmate
  rw [check_checkmate_foldl]
  simp [List.all_eq_true, List.isEmpty_iff]

/-- Counterexample for C2 as stated: on a board where the side to move owns
no pieces the move map is empty, yet check_checkmate still declares
checkmate. -/
theorem check_checkmate_declared_with_no_pieces :
    get_curr_player_pieces emptyBoardW = [] ∧
    get_all_poss_moves emptyBoardW = [] ∧
    check_checkmate (get_all_poss_moves emptyBoardW) = true := by
  decide

/-- C1: every destination in the legal-move map computed for the side to
move comes from a piece of that side, and simulating the move leaves no
opposing piece whose pseudo-legal moves contain the mover's own king
square. -/
theorem get_all_poss_moves_king_safe (bd : ChessBoard) (pos : Square)
    (ms : List Square) (tp : Square)
    (h1 : (pos, ms) ∈ get_all_poss_moves bd) (h2 : tp ∈ ms) :
    ∃ piece ∈ get_curr_player_pieces bd,
      piece.position = pos ∧
      ∀ k, find_king ((move_piece bd piece tp).1) bd.curr_player = some k →
        square_attacked_by ((move_piece bd piece tp).1)
          bd.curr_player.other k.position = false := by
  unfold get_all_poss_moves at h1
  obtain ⟨piece, hp, he⟩ := List.mem_map.mp h1
  have hpos : piece.position = pos := congrArg Prod.fst he
  have hms : is_curr_player_in_check bd piece (get_poss_moves_for bd piece)
      = ms := congrArg Prod.snd he
  refine ⟨piece, hp, hpos, ?_⟩
  intro k hk
  rw [← hms] at h2
  unfold is_curr_player_in_check at h2
  have hkept := (List.mem_filter.mp h2).2
  have hfalse : move_leaves_king_attacked bd piece tp = false := by
    simpa using hkept
  unfold move_leaves_king_attacked at hfalse
  simp only [hk] at hfalse
  exact hfalse

/-- Witness for C1: the promotion move of the pawn on pawnBoardW. -/
theorem get_all_poss_moves_king_safe_witness :
    ((0, 6), [((0 : Nat), (7 : Nat))]) ∈ get_all_poss_moves pawnBoardW ∧
    ∃ piece ∈ get_curr_player_pieces pawnBoardW,
      piece.position = (0, 6) ∧
      ∀ k, find_king ((move_piece pawnBoardW piece (0, 7)).1)
          pawnBoardW.curr_player = some k →
        square_attacked_by ((move_piece pawnBoardW piece (0, 7)).1)
          pawnBoardW.curr_player.other k.position = false :=
  ⟨by decide,
   get_all_poss_moves_king_safe pawnBoardW (0, 6) [(0, 7)] (0, 7)
     (by decide) (by decide)⟩

/-- C3: when EngineAI.choose_move yields no move, Game.make_ai_move leaves
the grid, the move history and the side to move unchanged. -/
theorem make_ai_move_no_move_preserves_state (st : GameSt)
    (fenLegal : String → Bool) (engine : List String → Option String)
    (h : choose_move st.chess_board (get_all_poss_moves st.chess_board)
        (ai_rules_for st.chess_board) fenLegal engine = none) :
    (make_ai_move st fenLegal engine).chess_board.board =
        st.chess_board.board ∧
    (make_ai_move st fenLegal engine).chess_board.played_moves =
        st.chess_board.played_moves ∧
    (make_ai_move st fenLegal engine).chess_board.curr_player =
        st.chess_board.curr_player := by
  have hm : make_ai_move st fenLegal engine =
      { st with all_poss_moves := get_all_poss_moves st.chess_board } := by
    unfold make_ai_move
    simp only [h]
  rw [hm]
  exact ⟨rfl, rfl, rfl⟩

/-- Witness for C3: an engine that answers nothing on pawnBoardW. -/
theorem make_ai_move_no_move_preserves_state_witness :
    choose_move stPW.chess_board (get_all_poss_moves stPW.chess_board)
        (ai_rules_for stPW.chess_board) (fun _ => true) (fun _ => none) =
      none ∧
    (make_ai_move stPW (fun _ => true) (fun _ => none)).chess_board.board =
        stPW.chess_board.board ∧
    (make_ai_move stPW (fun _ => true)
        (fun _ => none)).chess_board.played_moves =
      stPW.chess_board.played_moves ∧
    (make_ai_move stPW (fun _ => true)
        (fun _ => none)).chess_board.curr_player =
      stPW.chess_board.curr_player :=
  ⟨by decide,
   make_ai_move_no_move_preserves_state stPW (fun _ => true) (fun _ => none)
     (by decide)⟩

/-- C5: a command whose source square holds no piece of the current player,
or whose destination is not in that square's entry of the cached legal-move
map, leaves the grid, the side to move and the played-move history
unchanged. -/
theorem get_valid_command_reject_preserves_state (st : GameSt)
    (fp tp : Square)
    (h : is_piece_of_curr_player st.chess_board fp = false ∨
        tp ∉ (lookupMoves st.all_poss_moves fp).getD []) :
    (get_valid_command st fp tp).chess_board.board =
        st.chess_board.board ∧
    (get_valid_command st fp tp).chess_board.curr_player =
        st.chess_board.curr_player ∧
    (get_valid_command st fp tp).chess_board.played_moves =
        st.chess_board.played_moves := by
  unfold get_valid_command
  by_cases hp : is_piece_of_curr_player st.chess_board fp = true
  · have htp : tp ∉ (lookupMoves st.all_poss_moves fp).getD [] := by
      rcases h with h | h
      · rw [hp] at h; cases h
      · exact h
    rw [if_pos hp, if_neg htp, new_piece_selected_chess_board]
    exact ⟨rfl, rfl, rfl⟩
  · rw [if_neg hp]
    exact ⟨rfl, rfl, rfl⟩

/-- Witness for C5: a command from an empty square on pawnBoardW. -/
theorem get_valid_command_reject_preserves_state_witness :
    is_piece_of_curr_player stPW.chess_board (3, 3) = false ∧
    (get_valid_command stPW (3, 3) (3, 4)).chess_board.board =
        stPW.chess_board.board ∧
    (get_valid_command stPW (3, 3) (3, 4)).chess_board.curr_player =
        stPW.chess_board.curr_player ∧
    (get_valid_command stPW (3, 3) (3, 4)).chess_board.played_moves =
        stPW.chess_board.played_moves :=
  ⟨by decide,
   get_valid_command_reject_preserves_state stPW (3, 3) (3, 4)
     (Or.inl (by decide))⟩

/-- C7 (amended): every move offered by the driver's legal-move map also
appears, under the same source square, in the per-piece map the training
loop builds from raw pseudo-legal moves; the trainer map over-approximates
the driver map (the converse fails because the trainer skips the king-safety
filter, see the counterexample). -/
theorem driver_moves_in_trainer_map (bd : ChessBoard) (pos : Square)
    (ms : List Square) (tp : Square)
    (h1 : (pos, ms) ∈ get_all_poss_moves bd) (h2 : tp ∈ ms) :
    ∃ ms2, (pos, ms2) ∈ trainer_possible_moves bd ∧ tp ∈ ms2 := by
  unfold get_all_poss_moves at h1
  obtain ⟨piece, hp, he⟩ := List.mem_map.mp h1
  have hpos : piece.position = pos := congrArg Prod.fst he
  have hms : is_curr_player_in_check bd piece (get_poss_moves_for bd piece)
      = ms := congrArg Prod.snd he
  rw [← hms] at h2
  unfold is_curr_player_in_check at h2
  have htp : tp ∈ get_poss_moves_for bd piece := List.mem_of_mem_filter h2
  refine ⟨get_poss_moves_for bd piece, ?_, htp⟩
  unfold trainer_possible_moves
  apply List.mem_filterMap.mpr
  refine ⟨piece, hp, ?_⟩
  rw [if_pos (List.ne_nil_of_mem htp), hpos]

/-- Witness for C7 (amended): the pawn move of pawnBoardW. -/
theorem driver_moves_in_trainer_map_witness :
    ((0, 6), [((0 : Nat), (7 : Nat))]) ∈ get_all_poss_moves pawnBoardW ∧
    ∃ ms2, ((0, 6), ms2) ∈ trainer_possible_moves pawnBoardW ∧
      (0, 7) ∈ ms2 :=
  ⟨by decide,
   driver_moves_in_trainer_map pawnBoardW (0, 6) [(0, 7)] (0, 7)
     (by decide) (by decide)⟩

/-- Counterexample for C7 as stated: on the pin position the trainer's map
(raw pseudo-legal moves) differs from the driver's legal-move map — the
trainer's entry for the pinned rook keeps the horizontal moves the driver's
king-safety filter removes. -/
theorem trainer_map_ne_driver_map :
    trainer_possible_moves pinBoard ≠ get_all_poss_moves pinBoard ∧
    lookupMoves (trainer_possible_moves pinBoard) (4, 1) ≠
      lookupMoves (get_all_poss_moves pinBoard) (4, 1) := by
  decide

lemma mem_root_moves (bd : ChessBoard)
    (lm : List (Square × List Square)) (rules : Option DirectionRules)
    (fenLegal : String → Bool) (s : String)
    (hs : s ∈ root_moves_for bd lm rules fenLegal) :
    ∃ fp tos tp piece, (fp, tos) ∈ lm ∧ tp ∈ tos ∧
      get_piece_at bd fp = some piece ∧
      rules_allow rules piece.name fp tp = true ∧
      s = _to_uci fp tp := by
  unfold root_moves_for at hs
  obtain ⟨e, he, hmem⟩ := List.mem_flatMap.mp hs
  cases hpc : get_piece_at bd e.1 with
  | none => rw [hpc] at hmem; cases hmem
  | some piece =>
    rw [hpc] at hmem
    obtain ⟨tp, htp, hf⟩ := List.mem_filterMap.mp hmem
    by_cases hr : rules_allow rules piece.name e.1 tp = true
    · rw [if_pos hr] at hf
      by_cases hfen : fenLegal (_to_uci e.1 tp) = true
      · rw [if_pos hfen] at hf
        exact ⟨e.1, e.2, tp, piece, by simpa using he, htp, hpc, hr,
          (Option.some.inj hf).symm⟩
      · rw [if_neg hfen] at hf; cases hf
    · rw [if_neg hr] at hf; cases hf

/-- C4 (amended): EngineAI.choose_move returns none or the decoded engine
reply; whenever the engine's reply belongs to the restricted root-move list
it was given (as a conforming UCI engine guarantees under a root-move
restriction), the returned move lies in the supplied candidate map, its
source square is occupied, and it satisfies the DirectionRules filter when
one is supplied.  The code itself performs no membership check on the reply
(see the counterexample). -/
theorem choose_move_member_of_candidates (bd : ChessBoard)
    (lm : List (Square × List Square)) (rules : Option DirectionRules)
    (fenLegal : String → Bool) (engine : List String → Option String)
    (fp tp : Square)
    (hb : ∀ e ∈ lm, e.1.1 ≤ 7 ∧ e.1.2 ≤ 7 ∧ ∀ q ∈ e.2, q.1 ≤ 7 ∧ q.2 ≤ 7)
    (heng : ∀ s, engine (root_moves_for bd lm rules fenLegal) = some s →
      s ∈ root_moves_for bd lm rules fenLegal)
    (h : choose_move bd lm rules fenLegal engine = some (fp, tp)) :
    ∃ tos piece, (fp, tos) ∈ lm ∧ tp ∈ tos ∧
      get_piece_at bd fp = some piece ∧
      rules_allow rules piece.name fp tp = true := by
  unfold choose_move at h
  by_cases hrm : root_moves_for bd lm rules fenLegal = []
  · rw [if_pos hrm] at h; cases h
  · rw [if_neg hrm] at h
    cases hs : engine (root_moves_for bd lm rules fenLegal) with
    | none => rw [hs] at h; cases h
    | some s =>
      rw [hs] at h
      have h2 : some (_from_uci s) = some (fp, tp) := h
      obtain ⟨fp2, tos, tp2, piece, hlm, htos, hpc, hrules, hsu⟩ :=
        mem_root_moves bd lm rules fenLegal s (heng s hs)
      have hbnds := hb _ hlm
      have hbnd2 := hbnds.2.2 _ htos
      have hrt : _from_uci s = (fp2, tp2) := by
        rw [hsu]
        exact uci_round_trip fp2 tp2 hbnds.1 hbnds.2.1 hbnd2.1 hbnd2.2
      rw [hrt] at h2
      have hpair : (fp2, tp2) = (fp, tp) := Option.some.inj h2
      have hfp : fp2 = fp := congrArg Prod.fst hpair
      have htp2 : tp2 = tp := congrArg Prod.snd hpair
      subst hfp
      subst htp2
      exact ⟨tos, piece, hlm, htos, hpc, hrules⟩

/-- Witness for C4 (amended): an engine answering the first root move on
the one-pawn board. -/
theorem choose_move_member_of_candidates_witness :
    choose_move cbA2 lmA2 none (fun _ => true) (fun _ => some ("a2a3")) =
      some ((0, 1), (0, 2)) ∧
    ∃ tos piece, (((0 : Nat), (1 : Nat)), tos) ∈ lmA2 ∧ (0, 2) ∈ tos ∧
      get_piece_at cbA2 (0, 1) = some piece ∧
      rules_allow none piece.name (0, 1) (0, 2) = true :=
  ⟨by decide,
   choose_move_member_of_candidates cbA2 lmA2 none (fun _ => true)
     (fun _ => some ("a2a3")) (0, 1) (0, 2) (by decide)
     (fun s hs => by
       have hs2 : s = "a2a3" := (Option.some.inj hs).symm
       rw [hs2]
       decide)
     (by decide)⟩

/-- Counterexample for C4 as stated: an engine reply outside the supplied
root-move list is decoded and returned unchecked — here the candidate map
only offers a2-a3, the engine answers e2-e4, and choose_move returns a move
whose source square is not even a key of the map. -/
theorem choose_move_outside_candidates :
    choose_move cbA2 lmA2 none (fun _ => true) (fun _ => some ("e2e4")) =
      some ((4, 1), (4, 3)) ∧
    lookupMoves lmA2 (4, 1) = none := by
  decide

lemma add_move_curr_player (bd : ChessBoard) (p q : Square) :
    (add_move bd p q).curr_player = bd.curr_player :=
  rfl

lemma change_curr_player_board (bd : ChessBoard) :
    (change_curr_player bd).board = bd.board :=
  rfl

lemma apply_selected_move_promo (st : GameSt) (piece : Piece)
    (dest : Square) (hn : piece.name = PieceName.Pawn)
    (hr : dest.2 = 0 ∨ dest.2 = 7) :
    (apply_selected_move st piece dest).chess_board.board dest =
      some { name := .Queen, color := st.chess_board.curr_player,
             position := dest, has_moved := false } := by
  unfold apply_selected_move
  have hking : ¬ (piece.name = PieceName.King ∧
      dest ∈ get_castle_moves_for_curr_player st.chess_board) := by
    rintro ⟨hk, -⟩
    rw [hn] at hk
    cases hk
  rw [if_neg hking, if_pos ⟨hn, hr⟩]
  simp [deselect_piece, change_curr_player, game_move_piece, add_move,
    setSquare, move_piece_fst_curr_player]

/-- C6: on all four move-application paths — text command, engine move,
mouse click, and the training simulation — an applied pawn move whose
destination rank is 0 or 7 leaves a newly created queen of the mover's color
on the destination square. -/
theorem pawn_promotion_all_paths :
    (∀ st fp tp piece,
      is_piece_of_curr_player st.chess_board fp = true →
      get_piece_at st.chess_board fp = some piece →
      piece.name = PieceName.Pawn →
      tp ∈ (lookupMoves st.all_poss_moves fp).getD [] →
      (tp.2 = 0 ∨ tp.2 = 7) →
      (get_valid_command st fp tp).chess_board.board tp =
        some { name := .Queen, color := st.chess_board.curr_player,
               position := tp, has_moved := false }) ∧
    (∀ st fenLegal engine fp tp piece,
      choose_move st.chess_board (get_all_poss_moves st.chess_board)
          (ai_rules_for st.chess_board) fenLegal engine = some (fp, tp) →
      get_piece_at st.chess_board fp = some piece →
      piece.position = fp →
      piece.name = PieceName.Pawn →
      tp ∈ (lookupMoves (get_all_poss_moves st.chess_board) fp).getD [] →
      (tp.2 = 0 ∨ tp.2 = 7) →
      (make_ai_move st fenLegal engine).chess_board.board tp =
        some { name := .Queen, color := st.chess_board.curr_player,
               position := tp, has_moved := false }) ∧
    (∀ st sp sel,
      st.curr_selected_piece = some sel →
      sel.name = PieceName.Pawn →
      sp ≠ sel.position →
      sp ∈ st.curr_poss_moves.getD [] →
      (sp.2 = 0 ∨ sp.2 = 7) →
      (get_user_click_space st sp).chess_board.board sp =
        some { name := .Queen, color := st.chess_board.curr_player,
               position := sp, has_moved := false }) ∧
    (∀ bd fp tp piece,
      get_piece_at bd fp = some piece →
      piece.name = PieceName.Pawn →
      (tp.2 = 0 ∨ tp.2 = 7) →
      (trainer_apply_move bd fp tp).board tp =
        some { name := .Queen, color := bd.curr_player,
               position := tp, has_moved := false }) := by
  refine ⟨?_, ?_, ?_, ?_⟩
  · intro st fp tp piece hp hpc hn htp hr
    unfold get_valid_command
    rw [if_pos hp, if_pos htp]
    have hsel : (new_piece_selected st fp).curr_selected_piece =
        some piece := by
      unfold new_piece_selected
      rw [hpc]
    simp only [hsel]
    rw [apply_selected_move_promo _ _ _ hn hr,
      new_piece_selected_chess_board]
  · intro st fenLegal engine fp tp piece hch hpc hpos hn htp hr
    unfold make_ai_move
    simp only [hch, hpc]
    have hcond : tp ∈ ((new_piece_selected
        { st with all_poss_moves := get_all_poss_moves st.chess_board }
        fp).curr_poss_moves.getD []) := by
      unfold new_piece_selected
      simp only [hpc, hpos]
      simpa using htp
    rw [if_pos hcond]
    rw [apply_selected_move_promo _ _ _ hn hr,
      new_piece_selected_chess_board]
  · intro st sp sel hsel hn hne hmem hr
    unfold get_user_click_space
    simp only [hsel]
    rw [if_neg hne, if_pos hmem]
    rw [apply_selected_move_promo _ _ _ hn hr]
  · intro bd fp tp piece hpc hn hr
    unfold trainer_apply_move
    simp only [hpc]
    rw [if_pos ⟨hn, hr⟩]
    simp [setSquare, move_piece_fst_curr_player]

/-- Witness for C6: promoting the a7 pawn on all four paths. -/
theorem pawn_promotion_all_paths_witness :
    (get_valid_command stPW (0, 6) (0, 7)).chess_board.board (0, 7) =
      some { name := .Queen, color := Color.w, position := (0, 7),
             has_moved := false } ∧
    (make_ai_move stPW (fun _ => true)
        (fun _ => some ("a7a8"))).chess_board.board (0, 7) =
      some { name := .Queen, color := Color.w, position := (0, 7),
             has_moved := false } ∧
    (get_user_click_space stPWsel (0, 7)).chess_board.board (0, 7) =
      some { name := .Queen, color := Color.w, position := (0, 7),
             has_moved := false } ∧
    (trainer_apply_move pawnBoardW (0, 6) (0, 7)).board (0, 7) =
      some { name := .Queen, color := Color.w, position := (0, 7),
             has_moved := false } :=
  ⟨pawn_promotion_all_paths.1 stPW (0, 6) (0, 7) pawnW0 (by decide)
     (by decide) (by decide) (by decide) (Or.inr rfl),
   pawn_promotion_all_paths.2.1 stPW (fun _ => true) (fun _ => some ("a7a8"))
     (0, 6) (0, 7) pawnW0 (by decide) (by decide) (by decide) (by decide)
     (by decide) (Or.inr rfl),
   pawn_promotion_all_paths.2.2.1 stPWsel (0, 7) pawnW0 rfl (by decide)
     (by decide) (by decide) (Or.inr rfl),
   pawn_promotion_all_paths.2.2.2 pawnBoardW (0, 6) (0, 7) pawnW0
     (by decide) (by decide) (Or.inr rfl)⟩

lemma tensor_step_eval (bd : ChessBoard) (x y : Nat)
    (t : Nat → Nat → Nat → Nat) (c x0 y0 : Nat) :
    (match bd.board (x, y) with
     | some p => tensor_set t (channelOf p) x y 1
     | none => t) c x0 y0 =
      if x0 = x ∧ y0 = y ∧ hitChannel bd c x0 y0 = true then 1
      else t c x0 y0 := by
  by_cases hx : x0 = x
  · by_cases hy : y0 = y
    · subst hx
      subst hy
      unfold hitChannel
      cases hb : bd.board (x0, y0) with
      | none => simp
      | some p =>
        by_cases hc : channelOf p = c
        · simp [tensor_set, hc]
        · have hcc : ¬ c = channelOf p := fun h => hc h.symm
          simp [tensor_set, hc, hcc]
    · cases hb : bd.board (x, y) with
      | none => simp [hy]
      | some p => simp [tensor_set, hy]
  · cases hb : bd.board (x, y) with
    | none => simp [hx]
    | some p => simp [tensor_set, hx]

lemma tensor_inner_foldl_eval (bd : ChessBoard) (x : Nat) (ys : List Nat)
    (t : Nat → Nat → Nat → Nat) (c x0 y0 : Nat) :
    (ys.foldl
      (fun t2 y =>
        match bd.board (x, y) with
        | some p => tensor_set t2 (channelOf p) x y 1
        | none => t2) t) c x0 y0 =
      if x0 = x ∧ y0 ∈ ys ∧ hitChannel bd c x0 y0 = true then 1
      else t c x0 y0 := by
  induction ys generalizing t with
  | nil => simp
  | cons y ys ih =>
    rw [List.foldl_cons, ih, tensor_step_eval]
    simp only [List.mem_cons]
    split_ifs <;> first | rfl | tauto

lemma tensor_outer_foldl_eval (bd : ChessBoard) (xs : List Nat)
    (t : Nat → Nat → Nat → Nat) (c x0 y0 : Nat) :
    (xs.foldl
      (fun t x =>
        (List.range 8).foldl
          (fun t2 y =>
            match bd.board (x, y) with
            | some p => tensor_set t2 (channelOf p) x y 1
            | none => t2) t) t) c x0 y0 =
      if x0 ∈ xs ∧ y0 < 8 ∧ hitChannel bd c x0 y0 = true then 1
      else t c x0 y0 := by
  induction xs generalizing t with
  | nil => simp
  | cons x xs ih =>
    rw [List.foldl_cons, ih, tensor_inner_foldl_eval]
    simp only [List.mem_cons, List.mem_range]
    split_ifs <;> first | rfl | tauto

lemma board_to_tensor_fun_eval (bd : ChessBoard) (c x y : Nat) :
    board_to_tensor_fun bd c x y =
      if x < 8 ∧ y < 8 ∧ hitChannel bd c x y = true then 1 else 0 := by
  unfold board_to_tensor_fun
  rw [tensor_outer_foldl_eval]
  simp [List.mem_range]

lemma getD_map_range {α : Type} (n i : Nat) (f : Nat → α) (d : α)
    (h : i < n) : ((List.range n).map f).getD i d = f i := by
  rw [List.getD_eq_getElem?_getD, List.getElem?_map, List.getElem?_range h]
  rfl

/-- C9: board_to_tensor has fixed shape 1x12x8x8 and its entry at
(plane c, x, y) is 1 exactly when square (x, y) is occupied by a piece whose
channel (piece_types kind index, +6 for black) is c, and 0 otherwise. -/
theorem board_to_tensor_shape_entries (bd : ChessBoard) (c x y : Nat)
    (hc : c < 12) (hx : x < 8) (hy : y < 8) :
    (board_to_tensor bd).length = 1 ∧
    (∀ pl ∈ board_to_tensor bd, pl.length = 12 ∧
      ∀ mat ∈ pl, mat.length = 8 ∧ ∀ row ∈ mat, row.length = 8) ∧
    get4 (board_to_tensor bd) 0 c x y =
      (match bd.board (x, y) with
       | some p => if channelOf p = c then 1 else 0
       | none => 0) := by
  refine ⟨rfl, ?_, ?_⟩
  · intro pl hpl
    unfold board_to_tensor at hpl
    rw [List.mem_singleton] at hpl
    subst hpl
    refine ⟨by simp, ?_⟩
    intro mat hmat
    obtain ⟨c2, hc2, hmat2⟩ := List.mem_map.mp hmat
    subst hmat2
    refine ⟨by simp, ?_⟩
    intro row hrow
    obtain ⟨x2, hx2, hrow2⟩ := List.mem_map.mp hrow
    subst hrow2
    simp
  · unfold get4 board_to_tensor
    rw [show ([(List.range 12).map fun c =>
        (List.range 8).map fun x =>
          (List.range 8).map fun y =>
            board_to_tensor_fun bd c x y]).getD 0 [] =
        (List.range 12).map fun c =>
          (List.range 8).map fun x =>
            (List.range 8).map fun y => board_to_tensor_fun bd c x y
      from rfl]
    rw [getD_map_range 12 c _ _ hc, getD_map_range 8 x _ _ hx,
      getD_map_range 8 y _ _ hy, board_to_tensor_fun_eval]
    unfold hitChannel
    cases hb : bd.board (x, y) with
    | none => simp [hx, hy]
    | some p =>
      by_cases hcp : channelOf p = c
      · simp [hx, hy, hcp]
      · simp [hx, hy, hcp]

/-- Witness for C9 at the pawn square of pawnBoardW. -/
theorem board_to_tensor_shape_entries_witness :
    (board_to_tensor pawnBoardW).length = 1 ∧
    (∀ pl ∈ board_to_tensor pawnBoardW, pl.length = 12 ∧
      ∀ mat ∈ pl, mat.length = 8 ∧ ∀ row ∈ mat, row.length = 8) ∧
    get4 (board_to_tensor pawnBoardW) 0 0 0 6 =
      (match pawnBoardW.board (0, 6) with
       | some p => if channelOf p = 0 then 1 else 0
       | none => 0) :=
  board_to_tensor_shape_entries pawnBoardW 0 0 6 (by decide) (by decide)
    (by decide)

/-- C10: board_to_tensor depends only on grid occupancy (kind and color per
square): boards agreeing on occupancy yield equal tensors, whatever their
side to move, histories, captured lists or has_moved flags; in this
embedding the encoder is a pure function of the board, so it cannot modify
its argument. -/
theorem board_to_tensor_occupancy_only (b1 b2 : ChessBoard)
    (h : ∀ x ∈ List.range 8, ∀ y ∈ List.range 8,
      occ_eq (b1.board (x, y)) (b2.board (x, y)) = true) :
    board_to_tensor b1 = board_to_tensor b2 := by
  unfold board_to_tensor
  rw [List.cons.injEq]
  refine ⟨?_, rfl⟩
  apply List.map_congr_left
  intro c hc
  apply List.map_congr_left
  intro x hx
  apply List.map_congr_left
  intro y hy
  rw [board_to_tensor_fun_eval, board_to_tensor_fun_eval]
  have hxy := h x hx y hy
  have hhit : hitChannel b1 c x y = hitChannel b2 c x y := by
    unfold hitChannel
    unfold occ_eq at hxy
    cases hb1 : b1.board (x, y) with
    | none =>
      cases hb2 : b2.board (x, y) with
      | none => rfl
      | some q => rw [hb1, hb2] at hxy; cases hxy
    | some p =>
      cases hb2 : b2.board (x, y) with
      | none => rw [hb1, hb2] at hxy; cases hxy
      | some q =>
        rw [hb1, hb2] at hxy
        have hnc : p.name = q.name ∧ p.color = q.color := by
          simpa using hxy
        simp [channelOf, hnc.1, hnc.2]
  rw [hhit]

/-- Witness for C10: pawnBoardW against a copy that differs in side to move,
history, captured lists and has_moved flags. -/
theorem board_to_tensor_occupancy_only_witness :
    board_to_tensor pawnBoardW = board_to_tensor pawnBoardW2 :=
  board_to_tensor_occupancy_only pawnBoardW pawnBoardW2 (by decide)

end MLChess

